import Mathlib

/-!
Verification development for the Plato personal-assistant repository.

The Python source is shallowly embedded: each database-backed operation
becomes a pure function over an explicit state record (lists of table
rows), calendar dates become day numbers (`Int`, days from the civil
epoch, matching the proleptic Gregorian calendar used by Python
`datetime`), clock times become minutes after midnight (`Nat`), and
kilogram weights (Python floats holding exact multiples of 0.5) become
rationals.  The external Google-calendar collaborator is modelled as a
list of events plus a call counter, with an oracle `ok : Nat -> Bool`
deciding which create calls succeed (the source wraps each create in
try/except).  Database-generated row ids are modelled by a monotone
counter; the all-zero UUID that `pending_plan` deletes exclude is
modelled by the id 0, which the counter never produces.
-/

namespace Plato

/-! ## Generic helpers -/

/-- Boolean test that `p` is a prefix of `l` (character lists). -/
def listPre : List Char → List Char → Bool
  | [], _ => true
  | _ :: _, [] => false
  | a :: as, b :: bs => a == b && listPre as bs

/-- Boolean test that `p` occurs contiguously inside `l`. -/
def listSub (p : List Char) : List Char → Bool
  | [] => p.isEmpty
  | b :: bs => listPre p (b :: bs) || listSub p bs

/-- Python `needle in hay` on strings. -/
def strSub (hay needle : String) : Bool :=
  listSub needle.toList hay.toList

/-- Python `str.lower()` (charwise, mirroring `String.toLower`). -/
def toLowerStr (s : String) : String :=
  String.mk (s.toList.map Char.toLower)

/-- Python `str.strip()` on the underlying characters. -/
def trimStr (s : String) : String :=
  String.mk (((s.toList.dropWhile Char.isWhitespace).reverse.dropWhile
    Char.isWhitespace).reverse)

/-- Case-insensitive containment, modelling SQL `ILIKE '%needle%'`. -/
def ilikeSub (hay needle : String) : Bool :=
  strSub (toLowerStr hay) (toLowerStr needle)

/-- SQL `ORDER BY key DESC LIMIT 1` behaviour: the first row attaining the maximal key
(ties keep the earlier row). -/
def pickLatestBy (key : α → Int) : List α → Option α
  | [] => none
  | a :: l =>
    match pickLatestBy key l with
    | none => some a
    | some b => if key a < key b then some b else some a

/-- Stable insertion by a `Nat` key (rows with smaller keys first; equal
keys keep their original relative order). -/
def insByKey (key : α → Nat) (e : α) : List α → List α
  | [] => [e]
  | x :: xs => if key x ≤ key e then x :: insByKey key e xs else e :: x :: xs

/-- SQL `ORDER BY key ASC` as a stable insertion sort. -/
def sortByKey (key : α → Nat) (l : List α) : List α :=
  l.foldr (insByKey key) []

/-! ## Calendar dates

Python `datetime` dates are embedded as day numbers: `daysFromCivil`
is the standard days-from-civil conversion (1970-01-01 ↦ 0), so date
comparison, `timedelta` addition and `weekday()` (Monday = 0) are plain
integer arithmetic. -/

def isLeap (y : Int) : Bool :=
  y % 4 == 0 && (y % 100 != 0 || y % 400 == 0)

/-- Python `calendar.monthrange(y, m)[1]`. -/
def daysInMonth (y m : Int) : Int :=
  if m = 2 then (if isLeap y then 29 else 28)
  else if m = 4 ∨ m = 6 ∨ m = 9 ∨ m = 11 then 30
  else 31

/-- Day number of the Gregorian date `y-m-d` (1970-01-01 ↦ 0). -/
def daysFromCivil (y m d : Int) : Int :=
  let y2 := if m ≤ 2 then y - 1 else y
  let era := (if 0 ≤ y2 then y2 else y2 - 399) / 400
  let yoe := y2 - era * 400
  let mp := (m + 9) % 12
  let doy := (153 * mp + 2) / 5 + d - 1
  let doe := yoe * 365 + yoe / 4 - yoe / 100 + doy
  era * 146097 + doe - 719468

/-- Python `datetime.weekday()`: Monday = 0 … Sunday = 6. -/
def weekday (d : Int) : Int :=
  (d + 3) % 7

def weekdayNames : List String :=
  ["Monday", "Tuesday", "Wednesday", "Thursday", "Friday", "Saturday", "Sunday"]

/-- Python `strftime("%A")`. -/
def dayNameOf (d : Int) : String :=
  weekdayNames.getD (weekday d).toNat ""

/-- Minutes after midnight for the time literal `HH:MM`. -/
def hm (h m : Nat) : Nat := 60 * h + m

/-! ## plato_calendar.get_weekly_template -/

/-- One availability block of a day ("start"/"end"/"type"/"label" in the
source JSON; `stop` renders the "end" key and `btype` the "type" key). -/
structure TBlock where
  start : Nat
  stop : Nat
  btype : String
  label : String
deriving DecidableEq, Repr

structure TemplateDay where
  date : Int
  day : String
  location : String
  blocks : List TBlock
deriving DecidableEq, Repr

structure WeeklyTemplate where
  weekStart : Int
  days : List TemplateDay
deriving DecidableEq, Repr

def officeBlocks : List TBlock :=
  [⟨hm 7 30, hm 8 0, "commute_prep", "Get ready, lift to Luas"⟩,
   ⟨hm 8 0, hm 9 0, "commute", "Luas to Citco"⟩,
   ⟨hm 9 0, hm 18 0, "work", "Citco (Office)"⟩,
   ⟨hm 18 0, hm 19 30, "commute", "Walk to Luas to home"⟩,
   ⟨hm 19 30, hm 23 0, "free", "Evening block (3.5 hrs)"⟩]

def wfhGymBlocks : List TBlock :=
  [⟨hm 7 30, hm 9 0, "free", "Morning block (1.5 hrs)"⟩,
   ⟨hm 9 0, hm 18 0, "work", "Citco (WFH)"⟩,
   ⟨hm 18 0, hm 18 15, "commute", "Travel to gym"⟩,
   ⟨hm 18 15, hm 19 20, "fixed", "Gym session"⟩,
   ⟨hm 19 20, hm 19 40, "commute", "Travel home from gym"⟩,
   ⟨hm 19 40, hm 23 0, "free", "Evening block (3.3 hrs)"⟩]

def wfhBlocks : List TBlock :=
  [⟨hm 7 30, hm 9 0, "free", "Morning block (1.5 hrs)"⟩,
   ⟨hm 9 0, hm 18 0, "work", "Citco (WFH)"⟩,
   ⟨hm 18 0, hm 23 0, "free", "Evening block (5 hrs)"⟩]

def saturdayBlocks : List TBlock :=
  [⟨hm 7 30, hm 9 15, "free", "Early morning (1.75 hrs)"⟩,
   ⟨hm 9 15, hm 10 45, "fixed", "Drive mam to guzheng school"⟩,
   ⟨hm 10 45, hm 11 15, "fixed", "Click and collect groceries (on way home)"⟩,
   ⟨hm 11 15, hm 19 0, "free", "Main block (7.75 hrs)"⟩,
   ⟨hm 19 0, hm 20 30, "fixed", "Pick up mam from guzheng"⟩,
   ⟨hm 20 30, hm 23 0, "free", "Evening block (2.5 hrs)"⟩]

def sundayBlocks : List TBlock :=
  [⟨hm 7 30, hm 9 15, "free", "Early morning (1.75 hrs)"⟩,
   ⟨hm 9 15, hm 10 45, "fixed", "Drive mam to guzheng school"⟩,
   ⟨hm 10 45, hm 19 0, "free", "Main block (8.25 hrs)"⟩,
   ⟨hm 19 0, hm 20 30, "fixed", "Pick up mam from guzheng"⟩,
   ⟨hm 20 30, hm 23 0, "free", "Evening block (2.5 hrs, keep light, wind down)"⟩]

/-- Python `datetime(2026, 3, 1)`, the WFH/office cutover. -/
def cutover : Int := daysFromCivil 2026 3 1

/-- Body of the per-day loop of `get_weekly_template`. -/
def templateDayFor (weekStart : Int) (officeDays : List Nat) (off : Nat) : TemplateDay :=
  let date := weekStart + off
  let name := dayNameOf date
  if off < 5 then
    let isOffice := officeDays.contains off
    let isGym := [0, 1].contains off
    { date := date, day := name,
      location := if isOffice then "office" else "wfh",
      blocks := if isOffice then officeBlocks
                else if isGym then wfhGymBlocks else wfhBlocks }
  else if off = 5 then
    { date := date, day := name, location := "home", blocks := saturdayBlocks }
  else
    { date := date, day := name, location := "home", blocks := sundayBlocks }

/-- Model of `plato_calendar.get_weekly_template`. -/
def get_weekly_template (weekStart : Int) : WeeklyTemplate :=
  let officeDays : List Nat := if weekStart < cutover then [2, 3] else [1, 2, 3]
  { weekStart := weekStart,
    days := (List.range 7).map (templateDayFor weekStart officeDays) }

/-- Blocks tile the interval from `a` to `b`: each block starts where the
previous one ended, the first at `a`, the last ending at `b`. -/
def blocksCover (a b : Nat) : List TBlock → Bool
  | [] => a == b
  | blk :: rest => blk.start == a && blocksCover blk.stop b rest

/-! ## db.fitness.calculate_block_dates -/

/-- Model of `plato.db.fitness.calculate_block_dates` (results as day numbers; the
source formats them back to `"%Y-%m-%d"` strings). -/
def calculate_block_dates (y m : Int) : Int × Int :=
  let firstDay := daysFromCivil y m 1
  let w := weekday firstDay
  let daysUntilMonday := (7 - w) % 7
  let blockStart := if w = 0 then firstDay else firstDay + daysUntilMonday
  let lastDay := daysFromCivil y m (daysInMonth y m)
  let daysUntilSunday := (6 - weekday lastDay) % 7
  (blockStart, lastDay + daysUntilSunday)

/-! ## External calendar collaborator

The Google-calendar service is modelled as a list of events plus a
monotone id counter and a counter of create calls; the oracle `ok`
says which create calls succeed (the source logs and skips failures). -/

structure CalEvent where
  id : Nat
  date : Int
  startTime : Nat
  endTime : Nat
  summary : String
  description : Option String := none
  colorId : Option String := none
deriving DecidableEq, Repr

structure CalService where
  events : List CalEvent
  nextId : Nat
  createCalls : Nat
deriving DecidableEq, Repr

def platoTag : String := "[Plato]"

/-- Model of `plato_calendar.create_event`: one external insert attempt; the
summary is the title tagged with the reserved prefix string. -/
def create_event (ok : Nat → Bool) (cal : CalService) (date : Int)
    (startT stopT : Nat) (title : String)
    (description : Option String) (colorId : Option String) :
    Option CalEvent × CalService :=
  let n := cal.createCalls
  let ev : CalEvent :=
    { id := cal.nextId, date := date, startTime := startT, endTime := stopT,
      summary := "[Plato] " ++ title, description := description, colorId := colorId }
  if ok n then
    (some ev, { events := cal.events ++ [ev], nextId := cal.nextId + 1, createCalls := n + 1 })
  else
    (none, { cal with createCalls := n + 1 })

/-- Model of `plato_calendar.clear_plato_events`: delete every tagged event in
`[weekStart, weekStart + 7)`, returning how many were deleted. -/
def clear_plato_events (cal : CalService) (weekStart : Int) : Nat × CalService :=
  let cond := fun (e : CalEvent) =>
    decide (weekStart ≤ e.date) && decide (e.date < weekStart + 7) && strSub e.summary platoTag
  ((cal.events.filter cond).length,
   { cal with events := cal.events.filter (fun e => !cond e) })

/-- The calendar-side selection of `cancel_evening_events`: tagged events
on the date starting at or after the given time. -/
def cancelCond (date : Int) (fromTime : Nat) (e : CalEvent) : Bool :=
  e.date == date && decide (fromTime ≤ e.startTime) && strSub e.summary platoTag

/-- Model of `plato_calendar.cancel_evening_events`: delete every tagged event on
`date` starting at or after `fromTime`, returning the deleted events. -/
def cancel_evening_events (cal : CalService) (date : Int) (fromTime : Nat) :
    List CalEvent × CalService :=
  (cal.events.filter (cancelCond date fromTime),
   { cal with events := cal.events.filter (fun e => !cancelCond date fromTime e) })

def COLOR_MAP : List (String × String) :=
  [("cfa", "9"), ("nitrogen", "10"), ("glowbook", "6"), ("plato", "7"),
   ("leetcode", "3"), ("rest", "8"), ("exercise", "2"), ("personal", "4"),
   ("citco", "1"), ("audrey", "11")]

/-- A proposed event of a pending plan (JSON keys date/start/end/title/
description/category; `stop` renders the "end" key). -/
structure PEvent where
  date : Int
  start : Nat
  stop : Nat
  title : String
  description : Option String := none
  category : Option String := none
deriving DecidableEq, Repr

/-- Model of `plato_calendar.create_weekly_events`: best-effort create loop, one
attempt per event, counting only successes. -/
def create_weekly_events (ok : Nat → Bool) : CalService → List PEvent → Nat × CalService
  | cal, [] => (0, cal)
  | cal, event :: rest =>
    let color := COLOR_MAP.lookup (event.category.getD "")
    let r := create_event ok cal event.date event.start event.stop
      event.title event.description color
    let k := create_weekly_events ok r.2 rest
    (k.1 + (if r.1.isSome then 1 else 0), k.2)

/-! ## plato.db.schedule -/

/-- A `schedule_events` row. -/
structure SEvent where
  id : Nat
  date : Int
  startTime : Nat
  endTime : Nat
  title : String
  category : String
  description : Option String := none
  status : String
  actualSummary : Option String := none
  gapReason : Option String := none
  updatedAt : Nat := 0
deriving DecidableEq, Repr

/-- Model of `store_schedule_events`: insert one "planned" row per event (ids from
the monotone counter), returning the count, the new table and the new
counter. -/
def store_schedule_events (rows : List SEvent) (nextId : Nat) :
    List PEvent → Nat × List SEvent × Nat
  | [] => (0, rows, nextId)
  | e :: rest =>
    let entry : SEvent :=
      { id := nextId, date := e.date, startTime := e.start, endTime := e.stop,
        title := e.title, category := e.category.getD "personal",
        description := e.description, status := "planned" }
    let r := store_schedule_events (rows ++ [entry]) (nextId + 1) rest
    (r.1 + 1, r.2)

/-- Model of `get_planned_events_for_date`: all rows for the date (despite the
name, with no status filter), ordered by start time. -/
def get_planned_events_for_date (rows : List SEvent) (date : Int) : List SEvent :=
  sortByKey (fun e => e.startTime) (rows.filter (fun e => e.date == date))

/-- Model of `update_schedule_event`: set status (and the optional free-text
fields if non-empty, mirroring Python truthiness) on the row with the
given id. -/
def update_schedule_event (rows : List SEvent) (eventId : Nat) (status : String)
    (actualSummary gapReason : Option String) (now : Nat) : List SEvent :=
  rows.map fun e =>
    if e.id == eventId then
      { e with
        status := status
        updatedAt := now
        actualSummary := if (actualSummary.getD "").isEmpty then e.actualSummary else actualSummary
        gapReason := if (gapReason.getD "").isEmpty then e.gapReason else gapReason }
    else e

/-- The selection condition of `mark_evening_audrey`: planned rows on the
date starting at or after `fromTime`. -/
def audreyCond (date : Int) (fromTime : Nat) (e : SEvent) : Bool :=
  e.date == date && e.status == "planned" && decide (fromTime ≤ e.startTime)

/-- Model of `mark_evening_audrey`: select the matching planned rows, then update
each selected row (by id) to status "audrey_time"; returns the selected
rows as fetched. -/
def mark_evening_audrey (rows : List SEvent) (date : Int) (fromTime : Nat) (now : Nat) :
    List SEvent × List SEvent :=
  let affected := rows.filter (audreyCond date fromTime)
  let newRows := affected.foldl
    (fun acc ev => acc.map (fun x =>
      if x.id == ev.id then { x with status := "audrey_time", updatedAt := now } else x))
    rows
  (affected, newRows)

/-- Python `round(x, 1)` on the exact rational value. -/
def round1 (x : ℚ) : ℚ := (round (x * 10) : ℤ) / 10

/-- One `by_category` update step: `(category, completed, total)`. -/
def bumpCat (acc : List (String × Nat × Nat)) (e : SEvent) : List (String × Nat × Nat) :=
  if acc.any (fun p => p.1 == e.category) then
    acc.map fun p =>
      if p.1 == e.category then
        (p.1, p.2.1 + (if e.status == "completed" then 1 else 0), p.2.2 + 1)
      else p
  else
    acc ++ [(e.category, (if e.status == "completed" then 1 else 0), 1)]

structure AdherenceStats where
  total : Nat
  completed : Nat
  partialCount : Nat
  skipped : Nat
  audreyTime : Nat
  rescheduled : Nat
  planned : Nat
  byCategory : List (String × Nat × Nat)
  adherencePct : ℚ
deriving DecidableEq, Repr

/-- Model of `get_weekly_adherence`: per-status counts over `[weekStart,
weekStart + 7)` and the weighted percentage (floats modelled as exact
rationals). -/
def get_weekly_adherence (rows : List SEvent) (weekStart : Int) : AdherenceStats :=
  let data := rows.filter fun e =>
    decide (weekStart ≤ e.date) && decide (e.date < weekStart + 7)
  let count := fun (s : String) => (data.filter (fun e => e.status == s)).length
  let total := data.length
  { total := total, completed := count "completed", partialCount := count "partial",
    skipped := count "skipped", audreyTime := count "audrey_time",
    rescheduled := count "rescheduled", planned := count "planned",
    byCategory := data.foldl bumpCat [],
    adherencePct :=
      if 0 < total then
        round1 (((count "completed" : ℚ) + (count "partial" : ℚ) * (0.5 : ℚ)) / (total : ℚ) * 100)
      else 0 }

/-- A `pending_plan` row (`events` holds the JSON-decoded batch; the
JSON round-trip is modelled as the identity). -/
structure PendingRow where
  id : Nat
  createdAt : Nat
  events : List PEvent
deriving DecidableEq, Repr

/-- Model of `store_pending_plan`: `DELETE WHERE id <> zero-uuid` (so only an id-0
row could survive) then insert the new batch. -/
def store_pending_plan (rows : List PendingRow) (nextId : Nat) (events : List PEvent) :
    List PendingRow × Nat :=
  ((rows.filter fun r => r.id == 0) ++ [⟨nextId, nextId, events⟩], nextId + 1)

/-- Model of `get_pending_plan`: newest row by `created_at`, decoded. -/
def get_pending_plan (rows : List PendingRow) : Option (List PEvent) :=
  (pickLatestBy (fun r => (r.createdAt : Int)) rows).map (fun r => r.events)

/-- Model of `clear_pending_plan`: same `DELETE WHERE id <> zero-uuid`. -/
def clear_pending_plan (rows : List PendingRow) : List PendingRow :=
  rows.filter fun r => r.id == 0

/-! ## plato.actions (schedule actions)

Return values are modelled as inductives, one constructor per distinct
user-facing reply of the source. -/

inductive ApproveResult where
  | noPendingPlan
  | approved (cleared created stored : Nat)
deriving DecidableEq, Repr

inductive AudreyResult where
  | nothingToCancel
  | activated (cancelledTitles : List String)
deriving DecidableEq, Repr

inductive CheckInResult where
  | checkedInById (status : String)
  | checkedInResolved (title status : String)
  | noRecentBlock
deriving DecidableEq, Repr

structure SchedState where
  scheduleEvents : List SEvent
  pendingPlan : List PendingRow
  cal : CalService
  nextId : Nat
deriving DecidableEq, Repr

/-- Model of `plato.actions.process_approve_plan`. -/
def process_approve_plan (ok : Nat → Bool) (st : SchedState) :
    ApproveResult × SchedState :=
  match get_pending_plan st.pendingPlan with
  | none => (.noPendingPlan, st)
  | some events =>
    match events with
    | [] => (.noPendingPlan, st)   -- Python `if not events` also catches the empty list
    | e0 :: _ =>
      let weekStart := e0.date - weekday e0.date
      let c := clear_plato_events st.cal weekStart
      let cw := create_weekly_events ok c.2 events
      let stored := store_schedule_events st.scheduleEvents st.nextId events
      let pending := clear_pending_plan st.pendingPlan
      (.approved c.1 cw.1 stored.1,
       { scheduleEvents := stored.2.1, pendingPlan := pending,
         cal := cw.2, nextId := stored.2.2 })

/-- Model of `plato.actions.process_audrey_time`. -/
def process_audrey_time (st : SchedState) (date : Int) (fromTime : Nat) (now : Nat) :
    AudreyResult × SchedState :=
  let c := cancel_evening_events st.cal date fromTime
  let ma := mark_evening_audrey st.scheduleEvents date fromTime now
  let st' := { st with cal := c.2, scheduleEvents := ma.2 }
  if c.1.isEmpty && ma.1.isEmpty then (.nothingToCancel, st')
  else (.activated (c.1.map fun e => e.summary.replace "[Plato] " ""), st')

/-- Model of `plato.actions.process_check_in` (the current date and clock time are
passed explicitly; the source reads `datetime.now()`). -/
def process_check_in (st : SchedState) (eventId : Option Nat) (status : String)
    (actualSummary gapReason : Option String) (today : Int) (now : Nat) :
    CheckInResult × SchedState :=
  match eventId with
  | some i =>
    (.checkedInById status,
     { st with scheduleEvents :=
        update_schedule_event st.scheduleEvents i status actualSummary gapReason now })
  | none =>
    let events := get_planned_events_for_date st.scheduleEvents today
    let recent := events.foldl
      (fun acc e => if decide (e.endTime ≤ now) && e.status == "planned" then some e else acc)
      none
    match recent with
    | some r =>
      (.checkedInResolved r.title status,
       { st with scheduleEvents :=
          update_schedule_event st.scheduleEvents r.id status actualSummary gapReason now })
    | none => (.noRecentBlock, st)

/-- The combined resolution condition of the implicit check-in target:
an event of `today`, still planned, ending at or before `now`. -/
def chkCond (today : Int) (now : Nat) (e : SEvent) : Bool :=
  e.date == today && decide (e.endTime ≤ now) && e.status == "planned"

/-! ## plato.db.fitness -/

/-- Configuration of one main lift (`MAIN_LIFTS` values). -/
structure LiftCfg where
  name : String
  repLow : Nat
  repTop : Nat
  increment : ℚ
deriving DecidableEq, Repr

def MAIN_LIFTS : List (String × LiftCfg) :=
  [("incline_bench", ⟨"Incline Barbell Press", 6, 8, 2.5⟩),
   ("barbell_row", ⟨"Barbell Row", 6, 8, 2.5⟩),
   ("squat", ⟨"Back Squat", 8, 10, 2.5⟩),
   ("ohp", ⟨"Overhead Barbell Press", 6, 8, 2.5⟩)]

/-- Alias table in source (dict insertion) order. -/
def LIFT_ALIASES : List (String × String) :=
  [("incline bench", "incline_bench"), ("incline barbell", "incline_bench"),
   ("incline press", "incline_bench"), ("incline", "incline_bench"),
   ("barbell row", "barbell_row"), ("row", "barbell_row"),
   ("bent over row", "barbell_row"),
   ("squat", "squat"), ("back squat", "squat"), ("squats", "squat"),
   ("ohp", "ohp"), ("overhead press", "ohp"), ("shoulder press", "ohp"),
   ("military press", "ohp"), ("overhead barbell press", "ohp")]

/-- Source `_get_lift_key`: exact alias match first, otherwise the first
alias that contains or is contained in the lowered name. -/
def getLiftKey (exerciseName : String) : Option String :=
  let nameLower := trimStr (toLowerStr exerciseName)
  match LIFT_ALIASES.lookup nameLower with
  | some k => some k
  | none =>
    (LIFT_ALIASES.find? fun p => strSub nameLower p.1 || strSub p.1 nameLower).map
      fun p => p.2

/-- A `main_lift_progress` row. -/
structure ProgressRow where
  id : Nat
  date : Int
  liftName : String
  weightKg : ℚ
  sets : Nat
  reps : Nat
  targetReps : Nat
  hitTarget : Bool
  nextWeightKg : Option ℚ
  confirmed : Bool
deriving DecidableEq, Repr

/-- A `workout_templates` row. -/
structure TemplateRow where
  id : Nat
  sessionType : String
  exerciseName : String
  sets : Nat
  repRange : String
  isMainLift : Bool
  currentWeightKg : Option ℚ
deriving DecidableEq, Repr

/-- A `training_sessions` row. -/
structure SessionRow where
  id : Nat
  date : Int
  sessionType : String
  completed : Bool
  scheduled : Bool
  feedback : Option String := none
  blockId : Option Nat := none
deriving DecidableEq, Repr

/-- A `training_exercises` row (`sets`, `reps`, `weight_kg` are nullable
columns). -/
structure ExRow where
  id : Nat
  sessionId : Nat
  exerciseName : String
  sets : Option Nat
  reps : Option Nat
  weightKg : Option ℚ
  isMainLift : Bool
  notes : Option String := none
deriving DecidableEq, Repr

structure FitState where
  progress : List ProgressRow
  templates : List TemplateRow
  sessions : List SessionRow
  exercises : List ExRow
  nextId : Nat
deriving DecidableEq, Repr

/-- The dict `_track_main_lift` returns on success. -/
structure ProgSummary where
  lift : String
  liftKey : String
  weight : ℚ
  sets : Nat
  reps : Nat
  hitTarget : Bool
  nextWeight : Option ℚ
deriving DecidableEq, Repr

/-- Source `_track_main_lift`: record one main-lift performance with its
hit-target flag and unconfirmed next-weight suggestion.  (A missing
`MAIN_LIFTS` key would be a Python `KeyError`; it is unreachable because
callers obtain the key from `_get_lift_key`, whose alias targets are
exactly the four configured keys.) -/
def track_main_lift (st : FitState) (date : Int) (liftKey : String)
    (weight : ℚ) (sets reps : Nat) : Option ProgSummary × FitState :=
  match MAIN_LIFTS.lookup liftKey with
  | none => (none, st)
  | some config =>
    let hitTarget := decide (config.repTop ≤ reps) && decide (4 ≤ sets)
    let nextWeight := if hitTarget then some (weight + config.increment) else none
    let entry : ProgressRow :=
      ⟨st.nextId, date, liftKey, weight, sets, reps, config.repTop, hitTarget, nextWeight, false⟩
    (some ⟨config.name, liftKey, weight, sets, reps, hitTarget, nextWeight⟩,
     { st with progress := st.progress ++ [entry], nextId := st.nextId + 1 })

/-- The rows `confirm_progression` selects from: hit-target and not yet
confirmed, for the given lift. -/
def pendingFor (rows : List ProgressRow) (key : String) : List ProgressRow :=
  rows.filter fun r => r.liftName == key && r.hitTarget && !r.confirmed

/-- Model of `update_template_weight`: set the working weight on every
template row whose exercise name ILIKE-matches, returning whether any
row matched. -/
def update_template_weight (templates : List TemplateRow) (exerciseName : String)
    (newWeight : ℚ) : Bool × List TemplateRow :=
  (templates.any (fun t => ilikeSub t.exerciseName exerciseName),
   templates.map fun t =>
     if ilikeSub t.exerciseName exerciseName then
       { t with currentWeightKg := some newWeight }
     else t)

/-- Return value of `confirm_progression`, one constructor per distinct
reply string of the source. -/
inductive ConfirmResult where
  | noPending (liftKey : String)
  | confirmed (liftName : String) (newWeight : ℚ)
deriving DecidableEq, Repr

/-- Model of `confirm_progression`: confirm the most recent unconfirmed
hit-target entry for the lift (if any), overwrite the matching template
weights, and propagate the new weight into every not-completed
today-or-later session's matching exercise rows. -/
def confirm_progression (st : FitState) (today : Int) (liftKey : String) :
    ConfirmResult × FitState :=
  match pickLatestBy (fun r => r.date) (pendingFor st.progress liftKey) with
  | none => (.noPending liftKey, st)
  | some entry =>
    let newWeight := entry.nextWeightKg.getD 0   -- always set on hit-target rows
    let progress := st.progress.map fun r =>
      if r.id == entry.id then { r with confirmed := true } else r
    let liftName := ((MAIN_LIFTS.lookup liftKey).map LiftCfg.name).getD ""
    let templates := (update_template_weight st.templates liftName newWeight).2
    let futureIds :=
      (st.sessions.filter fun s => !s.completed && decide (today ≤ s.date)).map
        fun s => s.id
    let exercises := st.exercises.map fun ex =>
      if futureIds.contains ex.sessionId && ilikeSub ex.exerciseName liftName then
        { ex with weightKg := some newWeight }
      else ex
    (.confirmed liftName newWeight,
     { st with progress := progress, templates := templates, exercises := exercises })

/-- Model of `get_todays_workout`: the first not-completed scheduled
session on the date, with its exercises ordered by id. -/
def get_todays_workout (st : FitState) (date : Int) :
    Option (SessionRow × List ExRow) :=
  match (st.sessions.filter fun s => s.date == date && !s.completed && s.scheduled).head? with
  | none => none
  | some s =>
    some (s, sortByKey (fun e => e.id) (st.exercises.filter fun e => e.sessionId == s.id))

/-- One entry of the `exceptions` argument of `complete_workout`. -/
structure ExceptionSpec where
  exercise : String
  actualReps : Option Nat := none
  actualWeight : Option ℚ := none
  notes : Option String := none
deriving DecidableEq, Repr

/-- Return value of `complete_workout`: the two error dicts and the
success summary. -/
inductive CompleteResult where
  | alreadyCompleted
  | noScheduledWorkout
  | finished (sessionType : String) (exerciseCount : Nat)
deriving DecidableEq, Repr

/-- The exceptions loop of `complete_workout`: for each exception, update
the first session exercise whose name contains the exception's exercise
string (only the provided fields), against the pre-fetched session rows. -/
def applyExceptions (table : List ExRow) (sessExs : List ExRow)
    (excs : List ExceptionSpec) : List ExRow :=
  excs.foldl
    (fun tbl exc =>
      match sessExs.find? (fun ex =>
          strSub (toLowerStr ex.exerciseName) (toLowerStr exc.exercise)) with
      | none => tbl
      | some ex =>
        if exc.actualReps.isSome || exc.actualWeight.isSome || exc.notes.isSome then
          tbl.map fun r =>
            if r.id == ex.id then
              { r with
                reps := exc.actualReps <|> r.reps
                weightKg := exc.actualWeight <|> r.weightKg
                notes := exc.notes <|> r.notes }
            else r
        else tbl)
    table

/-- Reps parsed from a template note such as "Target: 6-8 reps" (the
source's `int(...)` would raise on malformed text; modelled as 0, which
is unreachable for template-generated notes). -/
def parseTargetReps (notes : Option String) : Nat :=
  let t := ((notes.getD "").replace "Target: " "").splitOn "-"
  match t.getLast? with
  | none => 0
  | some s => ((s.trim.splitOn " ").headD "").toNat?.getD 0

/-- Model of `complete_workout`: error out (without any write) when no
not-completed scheduled session exists for the date; otherwise mark the
session completed, apply the exceptions, and track every main lift with
a non-null non-zero planned weight.  (`sets` being NULL would raise in
the source; modelled as 0.) -/
def complete_workout (st : FitState) (date : Int) (feedback : Option String)
    (exceptions : List ExceptionSpec) : CompleteResult × FitState :=
  match get_todays_workout st date with
  | none =>
    if (st.sessions.filter fun s => s.date == date && s.completed).isEmpty then
      (.noScheduledWorkout, st)
    else
      (.alreadyCompleted, st)
  | some (session, sessExs) =>
    let sessions := st.sessions.map fun s =>
      if s.id == session.id then { s with completed := true, feedback := feedback } else s
    let exercises := applyExceptions st.exercises sessExs exceptions
    let st1 : FitState := { st with sessions := sessions, exercises := exercises }
    let st2 := sessExs.foldl
      (fun acc ex =>
        if ex.isMainLift && (ex.weightKg.getD 0 != 0) then
          match getLiftKey ex.exerciseName with
          | none => acc
          | some liftKey =>
            let matchesEx := fun (e : ExceptionSpec) =>
              strSub (toLowerStr ex.exerciseName) (toLowerStr e.exercise)
            let reps :=
              if exceptions.any matchesEx then
                ((exceptions.find? matchesEx).bind fun e => e.actualReps).getD 0
              else parseTargetReps ex.notes
            if 0 < reps then
              (track_main_lift acc date liftKey (ex.weightKg.getD 0) (ex.sets.getD 0) reps).2
            else acc
        else acc)
      st1
    (.finished session.sessionType sessExs.length, st2)

/-! ## Concrete sample states used in the concrete evaluations -/

/-- A fitness state with two unconfirmed hit-target squat entries (dates
10 and 20) and one matching template row. -/
def twoPendingState : FitState :=
  { progress :=
      [⟨1, 10, "squat", 95, 4, 10, 10, true, some (100 : ℚ), false⟩,
       ⟨2, 20, "squat", 100, 4, 10, 10, true, some (105 : ℚ), false⟩],
    templates := [⟨1, "Legs", "Back Squat", 4, "8-10", true, some (100 : ℚ)⟩],
    sessions := [], exercises := [], nextId := 3 }

/-- A week of four schedule events with statuses completed, completed,
partial and skipped. -/
def adherenceSample : List SEvent :=
  [⟨1, 0, 0, 0, "a", "cfa", none, "completed", none, none, 0⟩,
   ⟨2, 0, 0, 0, "b", "cfa", none, "completed", none, none, 0⟩,
   ⟨3, 1, 0, 0, "c", "rest", none, "partial", none, none, 0⟩,
   ⟨4, 2, 0, 0, "d", "rest", none, "skipped", none, none, 0⟩]

/-- A state with a staged two-event plan (both events on a Monday, day
number 4). -/
def approveSample : SchedState :=
  { scheduleEvents := [],
    pendingPlan :=
      [⟨1, 1, [⟨4, 540, 600, "CFA", none, some "cfa"⟩,
               ⟨4, 620, 660, "Rest", none, some "rest"⟩]⟩],
    cal := ⟨[], 1, 0⟩, nextId := 2 }

/-- A state whose only schedule event on the date is already completed
and starts in the evening. -/
def audreyCexState : SchedState :=
  { scheduleEvents := [⟨1, 0, 1140, 1200, "X", "personal", none, "completed", none, none, 0⟩],
    pendingPlan := [], cal := ⟨[], 1, 0⟩, nextId := 2 }

/-- A state with a planned 17:00 block and a planned 19:00 block on the
same date, mirrored on the external calendar. -/
def audreySample : SchedState :=
  { scheduleEvents :=
      [⟨1, 0, 1020, 1080, "Early", "cfa", none, "planned", none, none, 0⟩,
       ⟨2, 0, 1140, 1200, "Evening", "leetcode", none, "planned", none, none, 0⟩],
    pendingPlan := [],
    cal := ⟨[⟨1, 0, 1020, 1080, "[Plato] Early", none, none⟩,
             ⟨2, 0, 1140, 1200, "[Plato] Evening", none, none⟩], 3, 0⟩,
    nextId := 3 }

/-- A state with two planned blocks today, both already over by 20:30. -/
def checkInSample : SchedState :=
  { scheduleEvents :=
      [⟨1, 0, 1020, 1080, "A", "cfa", none, "planned", none, none, 0⟩,
       ⟨2, 0, 1140, 1200, "B", "leetcode", none, "planned", none, none, 0⟩],
    pendingPlan := [], cal := ⟨[], 1, 0⟩, nextId := 3 }

end Plato

namespace Plato

/-! ## Helper lemmas -/

theorem pickLatestBy_mem (key : α → Int) :
    ∀ {l : List α} {a : α}, pickLatestBy key l = some a → a ∈ l := by
  intro l
  induction l with
  | nil => intro a h; simp [pickLatestBy] at h
  | cons x xs ih =>
    intro a h
    simp only [pickLatestBy] at h
    cases hp : pickLatestBy key xs with
    | none => rw [hp] at h; cases h; exact List.mem_cons_self x xs
    | some b =>
      rw [hp] at h
      dsimp only at h
      by_cases hk : key x < key b
      · rw [if_pos hk] at h
        cases h
        exact List.mem_cons_of_mem x (ih hp)
      · rw [if_neg hk] at h
        cases h
        exact List.mem_cons_self x xs

theorem eq_of_length_le_one {l : List α} (h : l.length ≤ 1) {a b : α}
    (ha : a ∈ l) (hb : b ∈ l) : a = b := by
  match l with
  | [] => cases ha
  | [x] =>
    rw [List.mem_singleton] at ha hb
    rw [ha, hb]
  | x :: y :: t => simp at h

/-- Helper: when nothing is pending for the lift, `confirm_progression`
replies no-pending and leaves every table untouched. -/
theorem confirm_progression_of_pending_nil (st : FitState) (today : Int) (key : String)
    (h : pendingFor st.progress key = []) :
    confirm_progression st today key = (.noPending key, st) := by
  unfold confirm_progression
  rw [h]
  rfl

theorem create_event_calls (ok : Nat → Bool) (cal : CalService) (date : Int)
    (startT stopT : Nat) (title : String) (d c : Option String) :
    (create_event ok cal date startT stopT title d c).2.createCalls
      = cal.createCalls + 1 := by
  simp only [create_event]
  split <;> rfl

theorem create_weekly_events_calls (ok : Nat → Bool) :
    ∀ (events : List PEvent) (cal : CalService),
      (create_weekly_events ok cal events).2.createCalls
        = cal.createCalls + events.length := by
  intro events
  induction events with
  | nil => intro cal; rfl
  | cons e rest ih =>
    intro cal
    simp only [create_weekly_events]
    rw [ih, create_event_calls]
    simp only [List.length_cons]
    omega

theorem store_schedule_events_spec :
    ∀ (events : List PEvent) (rows : List SEvent) (nextId : Nat),
      ∃ newRows,
        (store_schedule_events rows nextId events).2.1 = rows ++ newRows ∧
        newRows.length = events.length ∧
        (∀ r ∈ newRows, r.status = "planned") ∧
        (store_schedule_events rows nextId events).1 = events.length := by
  intro events
  induction events with
  | nil =>
    intro rows nextId
    exact ⟨[], by simp [store_schedule_events]⟩
  | cons e rest ih =>
    intro rows nextId
    obtain ⟨nr, h1, h2, h3, h4⟩ := ih
      (rows ++ [{ id := nextId, date := e.date, startTime := e.start, endTime := e.stop,
                  title := e.title, category := e.category.getD "personal",
                  description := e.description, status := "planned" }]) (nextId + 1)
    refine ⟨{ id := nextId, date := e.date, startTime := e.start, endTime := e.stop,
              title := e.title, category := e.category.getD "personal",
              description := e.description, status := "planned" } :: nr, ?_, ?_, ?_, ?_⟩
    · simp only [store_schedule_events]
      rw [h1, List.append_assoc]
      rfl
    · simp [h2]
    · intro r hr
      rcases List.mem_cons.mp hr with h | h
      · rw [h]
      · exact h3 r h
    · simp only [store_schedule_events]
      rw [h4]
      rfl

theorem clear_pending_plan_of_no_zero_id (rows : List PendingRow)
    (h0 : ∀ r ∈ rows, r.id ≠ 0) : clear_pending_plan rows = [] := by
  unfold clear_pending_plan
  rw [List.filter_eq_nil_iff]
  intro r hr
  simp [h0 r hr]

/-! ## Claim theorems: C4 and C9 -/

/-- C4: for any week-start day `D` the weekly template builder returns
exactly 7 day entries dated `D` through `D+6`, and on every day the
ordered blocks contiguously cover 07:30 to 23:00 (each block's end is the
next block's start, no gaps and no overlaps); the function is total and
deterministic, succeeding for any input date. -/
theorem get_weekly_template_seven_contiguous_days (D : Int) :
    (get_weekly_template D).days.length = 7 ∧
    (get_weekly_template D).days.map TemplateDay.date
      = [D, D + 1, D + 2, D + 3, D + 4, D + 5, D + 6] ∧
    ((get_weekly_template D).days.all
      (fun day => blocksCover (hm 7 30) (hm 23 0) day.blocks)) = true := by
  by_cases h : D < cutover <;>
    simp only [get_weekly_template, if_pos, if_neg, h, if_true, if_false] <;>
    refine ⟨rfl, ?_, rfl⟩ <;>
    simp [templateDayFor, List.range_succ]

/-- C9: for every `(year, month)` the training-block date computation
returns a start that is the first Monday of the month (a Monday within
the first seven days of the month) and an end that is the Sunday on or
after the month's last day; in particular for February 2026 the start is
2026-02-02 and the end is 2026-03-01, the Sunday on or after 2026-02-28. -/
theorem calculate_block_dates_first_monday_last_sunday (y m : Int) :
    (weekday (calculate_block_dates y m).1 = 0 ∧
      daysFromCivil y m 1 ≤ (calculate_block_dates y m).1 ∧
      (calculate_block_dates y m).1 < daysFromCivil y m 1 + 7) ∧
    (weekday (calculate_block_dates y m).2 = 6 ∧
      daysFromCivil y m (daysInMonth y m) ≤ (calculate_block_dates y m).2 ∧
      (calculate_block_dates y m).2 < daysFromCivil y m (daysInMonth y m) + 7) ∧
    (y = 2026 → m = 2 →
      calculate_block_dates y m = (daysFromCivil 2026 2 2, daysFromCivil 2026 3 1)) := by
  refine ⟨?_, ?_, ?_⟩
  · simp only [calculate_block_dates, weekday]
    generalize daysFromCivil y m 1 = f
    split <;> omega
  · simp only [calculate_block_dates, weekday]
    generalize daysFromCivil y m (daysInMonth y m) = g
    omega
  · rintro rfl rfl
    decide

/-- Witness for C9 at the concrete input given by the claim: February
2026 (whose first day is a Sunday) yields block start 2026-02-02 and
block end 2026-03-01. -/
theorem calculate_block_dates_first_monday_last_sunday_witness :
    calculate_block_dates 2026 2 = (daysFromCivil 2026 2 2, daysFromCivil 2026 3 1) ∧
    weekday (calculate_block_dates 2026 2).1 = 0 :=
  ⟨(calculate_block_dates_first_monday_last_sunday 2026 2).2.2 rfl rfl,
   (calculate_block_dates_first_monday_last_sunday 2026 2).1.1⟩

/-! ## Claim theorem: C3 -/

/-- C3: if no plan is staged (no pending row at all, or a decoded empty
batch — Python `if not events` treats both alike), `process_approve_plan`
returns the no-pending warning result and performs zero side effects:
the returned state, external calendar included, is exactly the input
state, so nothing is deleted, created, inserted or cleared. -/
theorem process_approve_plan_nothing_staged (ok : Nat → Bool) (st : SchedState)
    (h : (get_pending_plan st.pendingPlan).getD [] = []) :
    process_approve_plan ok st = (.noPendingPlan, st) := by
  unfold process_approve_plan
  cases hp : get_pending_plan st.pendingPlan with
  | none => rfl
  | some evs =>
    rw [hp] at h
    simp only [Option.getD_some] at h
    rw [h]

/-- Witness for C3 at a concrete empty-staging state. -/
theorem process_approve_plan_nothing_staged_witness :
    (get_pending_plan (SchedState.mk [] [] ⟨[], 1, 0⟩ 1).pendingPlan).getD [] = [] ∧
    process_approve_plan (fun _ => true) (SchedState.mk [] [] ⟨[], 1, 0⟩ 1)
      = (.noPendingPlan, SchedState.mk [] [] ⟨[], 1, 0⟩ 1) :=
  ⟨by decide,
   process_approve_plan_nothing_staged (fun _ => true) (SchedState.mk [] [] ⟨[], 1, 0⟩ 1)
     (by decide)⟩

/-! ## Claim theorem: C6 -/

/-- C6: plan staging is last-write-wins — staging `A` and then `B` leaves
exactly one pending batch, and `get_pending_plan` returns exactly `B`
(under the modelling assumptions that no stored row carries the reserved
all-zero id and the id counter never produces it). -/
theorem store_pending_plan_last_write_wins (rows : List PendingRow) (nextId : Nat)
    (A B : List PEvent) (h0 : ∀ r ∈ rows, r.id ≠ 0) (h1 : nextId ≠ 0) :
    get_pending_plan
      (store_pending_plan (store_pending_plan rows nextId A).1
        (store_pending_plan rows nextId A).2 B).1 = some B ∧
    (store_pending_plan (store_pending_plan rows nextId A).1
        (store_pending_plan rows nextId A).2 B).1.length = 1 := by
  have hfil : rows.filter (fun r => r.id == 0) = [] := by
    rw [List.filter_eq_nil_iff]
    intro r hr
    simp [h0 r hr]
  have hs1 : (store_pending_plan rows nextId A).1 = [⟨nextId, nextId, A⟩] := by
    unfold store_pending_plan
    rw [hfil]
    rfl
  have hfil2 : List.filter (fun r => r.id == 0) [(⟨nextId, nextId, A⟩ : PendingRow)] = [] := by
    rw [List.filter_eq_nil_iff]
    intro r hr
    rw [List.mem_singleton] at hr
    rw [hr]
    simp [h1]
  have hs2 : (store_pending_plan rows nextId A).2 = nextId + 1 := rfl
  constructor
  · rw [hs1, hs2]
    unfold store_pending_plan
    rw [hfil2]
    rfl
  · rw [hs1, hs2]
    unfold store_pending_plan
    rw [hfil2]
    rfl

/-- Witness for C6 at a concrete pair of plans. -/
theorem store_pending_plan_last_write_wins_witness :
    (∀ r ∈ ([] : List PendingRow), r.id ≠ 0) ∧ (1 : Nat) ≠ 0 ∧
    get_pending_plan
      (store_pending_plan (store_pending_plan [] 1 []).1
        (store_pending_plan [] 1 []).2 [⟨0, 540, 600, "CFA", none, some "cfa"⟩]).1
      = some [⟨0, 540, 600, "CFA", none, some "cfa"⟩] :=
  ⟨by simp, by decide,
   (store_pending_plan_last_write_wins [] 1 [] [⟨0, 540, 600, "CFA", none, some "cfa"⟩]
     (by simp) (by decide)).1⟩

/-! ## Claim theorem: C5 -/

/-- C5: the weekly adherence percentage is
`round((completed + 0.5 * partial) / total * 100, 1)` whenever the week
has any events, and is defined as 0 (not NaN, not an error) when the
week has zero events. -/
theorem get_weekly_adherence_pct (rows : List SEvent) (weekStart : Int) :
    ((get_weekly_adherence rows weekStart).total = 0 →
      (get_weekly_adherence rows weekStart).adherencePct = 0) ∧
    (0 < (get_weekly_adherence rows weekStart).total →
      (get_weekly_adherence rows weekStart).adherencePct =
        round1 ((((get_weekly_adherence rows weekStart).completed : ℚ) +
          ((get_weekly_adherence rows weekStart).partialCount : ℚ) * (0.5 : ℚ)) /
          ((get_weekly_adherence rows weekStart).total : ℚ) * 100)) := by
  unfold get_weekly_adherence
  constructor
  · intro h
    simp only at h ⊢
    rw [if_neg]
    omega
  · intro h
    simp only at h ⊢
    rw [if_pos h]

/-- Witness for C5 at the claim's concrete week: counts completed 2,
partial 1, skipped 1 give total 4 and percentage 62.5. -/
theorem get_weekly_adherence_pct_witness :
    0 < (get_weekly_adherence adherenceSample 0).total ∧
    (get_weekly_adherence adherenceSample 0).adherencePct =
      round1 ((((get_weekly_adherence adherenceSample 0).completed : ℚ) +
        ((get_weekly_adherence adherenceSample 0).partialCount : ℚ) * (0.5 : ℚ)) /
        ((get_weekly_adherence adherenceSample 0).total : ℚ) * 100) ∧
    (get_weekly_adherence adherenceSample 0).adherencePct = (62.5 : ℚ) := by
  have happ := (get_weekly_adherence_pct adherenceSample 0).2 (by decide)
  refine ⟨by decide, happ, ?_⟩
  have hc : (get_weekly_adherence adherenceSample 0).completed = 2 := by decide
  have hp : (get_weekly_adherence adherenceSample 0).partialCount = 1 := by decide
  have ht : (get_weekly_adherence adherenceSample 0).total = 4 := by decide
  rw [happ, hc, hp, ht]
  norm_num [round1, round_eq]

/-! ## Claim theorem: C10 -/

/-- C10: when the session(s) recorded for the date are already completed
(no not-completed scheduled session exists, and at least one completed
one does), `complete_workout` returns the already-completed error result
and performs no database writes: the returned state is exactly the input
state, so the session stays as it was, no exercise rows change, and no
main-lift progress entries are inserted. -/
theorem complete_workout_already_completed (st : FitState) (date : Int)
    (feedback : Option String) (exceptions : List ExceptionSpec)
    (h1 : ∀ s ∈ st.sessions, s.date = date → s.completed = true ∨ s.scheduled = false)
    (h2 : ∃ s ∈ st.sessions, s.date = date ∧ s.completed = true) :
    complete_workout st date feedback exceptions = (.alreadyCompleted, st) := by
  have hnone : get_todays_workout st date = none := by
    unfold get_todays_workout
    have hfil : (st.sessions.filter fun s => s.date == date && !s.completed && s.scheduled) = [] := by
      rw [List.filter_eq_nil_iff]
      intro s hs
      intro hcond
      simp only [Bool.and_eq_true, beq_iff_eq, Bool.not_eq_true'] at hcond
      rcases h1 s hs hcond.1.1 with h | h
      · rw [h] at hcond
        exact absurd hcond.1.2 (by simp)
      · rw [h] at hcond
        exact absurd hcond.2 (by simp)
    rw [hfil]
    rfl
  unfold complete_workout
  rw [hnone]
  obtain ⟨s, hs, hd, hc⟩ := h2
  have hmem : s ∈ st.sessions.filter fun x => x.date == date && x.completed := by
    rw [List.mem_filter]
    exact ⟨hs, by simp [hd, hc]⟩
  have : (st.sessions.filter fun x => x.date == date && x.completed).isEmpty = false := by
    cases hl : st.sessions.filter fun x => x.date == date && x.completed with
    | nil => rw [hl] at hmem; cases hmem
    | cons a t => rfl
  rw [this]
  rfl

/-- Witness for C10: a date whose only session is completed. -/
theorem complete_workout_already_completed_witness :
    (∀ s ∈ (FitState.mk [] [] [⟨1, 0, "Push", true, true, none, none⟩] [] 2).sessions,
      s.date = 0 → s.completed = true ∨ s.scheduled = false) ∧
    complete_workout (FitState.mk [] [] [⟨1, 0, "Push", true, true, none, none⟩] [] 2)
      0 none [] = (.alreadyCompleted,
        FitState.mk [] [] [⟨1, 0, "Push", true, true, none, none⟩] [] 2) :=
  ⟨by decide,
   complete_workout_already_completed
     (FitState.mk [] [] [⟨1, 0, "Push", true, true, none, none⟩] [] 2) 0 none []
     (by decide) ⟨⟨1, 0, "Push", true, true, none, none⟩, by decide, rfl, rfl⟩⟩

/-! ## Claim theorems: C1 (counterexample and amended idempotence) -/

/-- Counterexample to C1 as stated: with two unconfirmed hit-target
entries for "squat", the second consecutive `confirm_progression` call is
not a no-op — it replies with a confirmation (not the nothing-pending
message) and changes the stored template weight again (105 after the
first call, 100 after the second). -/
theorem confirm_progression_second_call_not_noop :
    (confirm_progression (confirm_progression twoPendingState 0 "squat").2 0 "squat").1
        = ConfirmResult.confirmed "Back Squat" (100 : ℚ) ∧
    (confirm_progression twoPendingState 0 "squat").2.templates.map
        (fun t => t.currentWeightKg) = [some (105 : ℚ)] ∧
    (confirm_progression (confirm_progression twoPendingState 0 "squat").2 0 "squat").2.templates.map
        (fun t => t.currentWeightKg) = [some (100 : ℚ)] := by
  refine ⟨by decide, by decide, by decide⟩

/-- C1 (amended): provided at most one unconfirmed hit-target entry
exists for the lift key — the state reached when each hit is confirmed
before the next is logged — two consecutive `confirm_progression` calls
are idempotent: the first confirms the pending entry (if any) and applies
its weight, and the second is a no-op that returns the nothing-pending
message and leaves the state (in particular the workout-template weight)
exactly as the first call left it. -/
theorem confirm_progression_second_call_noop (st : FitState) (today : Int) (key : String)
    (h : (pendingFor st.progress key).length ≤ 1) :
    (∀ entry, pickLatestBy (fun r => r.date) (pendingFor st.progress key) = some entry →
      ({ entry with confirmed := true } ∈ (confirm_progression st today key).2.progress ∧
       ∀ t ∈ (confirm_progression st today key).2.templates,
         ilikeSub t.exerciseName (((MAIN_LIFTS.lookup key).map LiftCfg.name).getD "") = true →
           t.currentWeightKg = some (entry.nextWeightKg.getD 0))) ∧
    confirm_progression (confirm_progression st today key).2 today key
      = (.noPending key, (confirm_progression st today key).2) := by
  constructor
  · intro entry hpick
    have hentry : entry ∈ pendingFor st.progress key := pickLatestBy_mem _ hpick
    have hmemp : entry ∈ st.progress := (List.mem_filter.mp hentry).1
    have hprog : (confirm_progression st today key).2.progress
        = st.progress.map (fun r => if r.id == entry.id then { r with confirmed := true } else r) := by
      unfold confirm_progression
      rw [hpick]
    have htmpl : (confirm_progression st today key).2.templates
        = st.templates.map (fun t =>
            if ilikeSub t.exerciseName (((MAIN_LIFTS.lookup key).map LiftCfg.name).getD "") then
              { t with currentWeightKg := some (entry.nextWeightKg.getD 0) }
            else t) := by
      unfold confirm_progression
      rw [hpick]
      rfl
    constructor
    · rw [hprog]
      have : { entry with confirmed := true }
          = (fun r => if r.id == entry.id then { r with confirmed := true } else r) entry := by
        simp
      rw [this]
      exact List.mem_map_of_mem _ hmemp
    · rw [htmpl]
      intro t ht hilike
      obtain ⟨t0, ht0, rfl⟩ := List.mem_map.mp ht
      by_cases hc : ilikeSub t0.exerciseName
          (((MAIN_LIFTS.lookup key).map LiftCfg.name).getD "") = true
      · rw [if_pos hc]
      · rw [if_neg hc] at hilike ⊢
        exact absurd hilike hc
  · cases hpick : pickLatestBy (fun r => r.date) (pendingFor st.progress key) with
    | none =>
      have h1 : confirm_progression st today key = (.noPending key, st) := by
        unfold confirm_progression
        rw [hpick]
      rw [h1]
      exact h1
    | some entry =>
      have hentry : entry ∈ pendingFor st.progress key := pickLatestBy_mem _ hpick
      have hprog : (confirm_progression st today key).2.progress
          = st.progress.map (fun r => if r.id == entry.id then { r with confirmed := true } else r) := by
        unfold confirm_progression
        rw [hpick]
      have hempty : pendingFor (confirm_progression st today key).2.progress key = [] := by
        rw [hprog]
        unfold pendingFor
        rw [List.filter_eq_nil_iff]
        intro x hx
        obtain ⟨r, hr, rfl⟩ := List.mem_map.mp hx
        by_cases hid : r.id == entry.id
        · rw [if_pos hid]
          simp
        · rw [if_neg hid]
          intro hcond
          have hrp : r ∈ pendingFor st.progress key := List.mem_filter.mpr ⟨hr, hcond⟩
          have : r = entry := eq_of_length_le_one h hrp hentry
          rw [this] at hid
          simp at hid
      exact confirm_progression_of_pending_nil _ today key hempty

/-- Witness for C1 (amended) at a one-pending-entry state: the first call
confirms, the second replies nothing-pending and changes nothing. -/
theorem confirm_progression_second_call_noop_witness :
    (pendingFor (FitState.mk
        [⟨1, 10, "squat", 100, 4, 10, 10, true, some (105 : ℚ), false⟩]
        [⟨1, "Legs", "Back Squat", 4, "8-10", true, some (100 : ℚ)⟩] [] [] 2).progress
      "squat").length ≤ 1 ∧
    confirm_progression
      (confirm_progression (FitState.mk
        [⟨1, 10, "squat", 100, 4, 10, 10, true, some (105 : ℚ), false⟩]
        [⟨1, "Legs", "Back Squat", 4, "8-10", true, some (100 : ℚ)⟩] [] [] 2) 0 "squat").2
      0 "squat"
      = (.noPending "squat",
         (confirm_progression (FitState.mk
        [⟨1, 10, "squat", 100, 4, 10, 10, true, some (105 : ℚ), false⟩]
        [⟨1, "Legs", "Back Squat", 4, "8-10", true, some (100 : ℚ)⟩] [] [] 2) 0 "squat").2) :=
  ⟨by decide,
   (confirm_progression_second_call_noop (FitState.mk
        [⟨1, 10, "squat", 100, 4, 10, 10, true, some (105 : ℚ), false⟩]
        [⟨1, "Legs", "Back Squat", 4, "8-10", true, some (100 : ℚ)⟩] [] [] 2) 0 "squat"
     (by decide)).2⟩

/-! ## Claim theorem: C2 -/

/-- C2: approving a staged plan of N (at least one) proposed events
attempts exactly N external calendar creates (the call counter grows by
N whatever the success oracle says), inserts exactly N ScheduleEvent
rows, all with status "planned", independently of which external creates
succeed, and clears the pending plan afterward. -/
theorem process_approve_plan_counts (ok : Nat → Bool) (st : SchedState)
    (events : List PEvent) (hp : get_pending_plan st.pendingPlan = some events)
    (hne : events ≠ []) (h0 : ∀ r ∈ st.pendingPlan, r.id ≠ 0) :
    (process_approve_plan ok st).2.cal.createCalls
        = st.cal.createCalls + events.length ∧
    (∃ newRows, (process_approve_plan ok st).2.scheduleEvents
        = st.scheduleEvents ++ newRows ∧
      newRows.length = events.length ∧ ∀ r ∈ newRows, r.status = "planned") ∧
    get_pending_plan (process_approve_plan ok st).2.pendingPlan = none := by
  obtain ⟨e0, rest, rfl⟩ : ∃ e0 rest, events = e0 :: rest := by
    cases events with
    | nil => exact absurd rfl hne
    | cons a l => exact ⟨a, l, rfl⟩
  unfold process_approve_plan
  rw [hp]
  refine ⟨?_, ?_, ?_⟩
  · rw [create_weekly_events_calls]
    rfl
  · obtain ⟨nr, h1, h2, h3, h4⟩ := store_schedule_events_spec (e0 :: rest) st.scheduleEvents st.nextId
    exact ⟨nr, h1, h2, h3⟩
  · show get_pending_plan (clear_pending_plan st.pendingPlan) = none
    rw [clear_pending_plan_of_no_zero_id st.pendingPlan h0]
    rfl

/-- Witness for C2: a staged two-event plan approved under an oracle that
fails the second create still records two "planned" rows, attempts two
creates (createCalls 0 to 2) and clears the plan; the user-facing result
reports 0 cleared, 1 created, 2 tracked. -/
theorem process_approve_plan_counts_witness :
    get_pending_plan approveSample.pendingPlan
      = some [⟨4, 540, 600, "CFA", none, some "cfa"⟩,
              ⟨4, 620, 660, "Rest", none, some "rest"⟩] ∧
    ((process_approve_plan (fun n => n == 0) approveSample).2.cal.createCalls
        = approveSample.cal.createCalls + 2 ∧
      (∃ newRows, (process_approve_plan (fun n => n == 0) approveSample).2.scheduleEvents
          = approveSample.scheduleEvents ++ newRows ∧
        newRows.length = 2 ∧ ∀ r ∈ newRows, r.status = "planned") ∧
      get_pending_plan (process_approve_plan (fun n => n == 0) approveSample).2.pendingPlan
        = none) ∧
    (process_approve_plan (fun n => n == 0) approveSample).1 = .approved 0 1 2 :=
  ⟨by decide,
   process_approve_plan_counts (fun n => n == 0) approveSample
     [⟨4, 540, 600, "CFA", none, some "cfa"⟩, ⟨4, 620, 660, "Rest", none, some "rest"⟩]
     (by decide) (by decide) (by decide),
   by decide⟩

/-! ## Claim theorems: C7 (counterexample and amended marking) -/

/-- Helper: updating rows by the ids of a list of rows with pairwise
distinct ids equals a conditional map. -/
theorem foldl_update_by_id (upd : SEvent → SEvent) (hid : ∀ x, (upd x).id = x.id)
    (M : List SEvent) (hnd : (M.map (fun e => e.id)).Nodup) :
    ∀ l : List SEvent,
      M.foldl (fun acc ev => acc.map fun x => if x.id == ev.id then upd x else x) l
        = l.map (fun x => if (∃ e ∈ M, e.id = x.id) then upd x else x) := by
  induction M with
  | nil =>
    intro l
    simp
  | cons a M ih =>
    intro l
    have hnd' : (a.id :: M.map (fun e => e.id)).Nodup := hnd
    have hcons := List.nodup_cons.mp hnd'
    have hna : a.id ∉ M.map (fun e => e.id) := hcons.1
    rw [List.foldl_cons, ih hcons.2, List.map_map]
    apply List.map_congr_left
    intro x _
    simp only [Function.comp_apply]
    by_cases hxa : x.id = a.id
    · have h1 : (x.id == a.id) = true := by simp [hxa]
      rw [if_pos h1, if_neg, if_pos]
      · exact ⟨a, List.mem_cons_self a M, hxa.symm⟩
      · rintro ⟨e, he, heid⟩
        rw [hid x, hxa] at heid
        exact hna (heid ▸ List.mem_map_of_mem (fun e => e.id) he)
    · have h1 : (x.id == a.id) = false := by simp [hxa]
      rw [h1]
      simp only [Bool.false_eq_true, if_false]
      by_cases hex : ∃ e ∈ M, e.id = x.id
      · rw [if_pos hex, if_pos]
        obtain ⟨e, he, heid⟩ := hex
        exact ⟨e, List.mem_cons_of_mem a he, heid⟩
      · rw [if_neg hex, if_neg]
        rintro ⟨e, he, heid⟩
        rcases List.mem_cons.mp he with rfl | he'
        · exact hxa heid.symm
        · exact hex ⟨e, he', heid⟩

/-- Helper: `mark_evening_audrey` is the conditional map that sets status
"audrey_time" exactly on the planned rows of the date starting at or
after the given time, when row ids are pairwise distinct. -/
theorem mark_evening_audrey_map (rows : List SEvent) (date : Int) (fromTime now : Nat)
    (hnd : (rows.map (fun e => e.id)).Nodup) :
    (mark_evening_audrey rows date fromTime now).2
      = rows.map (fun x =>
          if audreyCond date fromTime x then
            { x with status := "audrey_time", updatedAt := now }
          else x) := by
  simp only [mark_evening_audrey]
  have hndf : ((rows.filter (audreyCond date fromTime)).map (fun e => e.id)).Nodup :=
    hnd.sublist ((List.filter_sublist rows).map (fun e => e.id))
  rw [foldl_update_by_id (fun x => { x with status := "audrey_time", updatedAt := now })
    (fun x => rfl) _ hndf rows]
  apply List.map_congr_left
  intro x hx
  by_cases hc : audreyCond date fromTime x = true
  · rw [if_pos hc, if_pos]
    exact ⟨x, List.mem_filter.mpr ⟨hx, hc⟩, rfl⟩
  · rw [if_neg hc, if_neg]
    rintro ⟨e, he, heid⟩
    have hef := List.mem_filter.mp he
    have : e = x := List.inj_on_of_nodup_map hnd hef.1 hx heid
    rw [this] at hef
    exact hc hef.2

/-- Counterexample to C7 as stated: a ScheduleEvent of the date starting
at 19:00 (at or after the 18:00 cutoff) whose status is "completed" is
left completely untouched by Audrey-time cancellation — it is not marked
"audrey_time", because the source only selects rows still in "planned"
status. -/
theorem process_audrey_time_counterexample :
    (process_audrey_time audreyCexState 0 1080 7).2.scheduleEvents
      = [⟨1, 0, 1140, 1200, "X", "personal", none, "completed", none, none, 0⟩] ∧
    (1080 : Nat) ≤ 1140 ∧ ("completed" : String) ≠ "audrey_time" := by
  refine ⟨by decide, by decide, by decide⟩

/-- C7 (amended): Audrey-time cancellation marks exactly the *planned*
ScheduleEvents of the date starting at or after the from time with
status "audrey_time" (every other row — in particular every row starting
before the from time — is left entirely unchanged), deletes exactly the
matching prefix-tagged external events, and when nothing matches it
returns the empty "nothing to cancel" result with the state unchanged
rather than an error.  Row ids are assumed pairwise distinct (database
primary keys). -/
theorem process_audrey_time_marks_planned (st : SchedState) (date : Int)
    (fromTime now : Nat) (hnd : (st.scheduleEvents.map (fun e => e.id)).Nodup) :
    ((process_audrey_time st date fromTime now).2.scheduleEvents
      = st.scheduleEvents.map (fun x =>
          if audreyCond date fromTime x then
            { x with status := "audrey_time", updatedAt := now }
          else x)) ∧
    ((process_audrey_time st date fromTime now).2.cal.events
      = st.cal.events.filter (fun e => !cancelCond date fromTime e)) ∧
    (st.scheduleEvents.filter (audreyCond date fromTime) = [] →
      st.cal.events.filter (cancelCond date fromTime) = [] →
      process_audrey_time st date fromTime now = (.nothingToCancel, st)) := by
  have h2 : (process_audrey_time st date fromTime now).2
      = { st with
          cal := (cancel_evening_events st.cal date fromTime).2
          scheduleEvents := (mark_evening_audrey st.scheduleEvents date fromTime now).2 } := by
    simp only [process_audrey_time]
    split <;> rfl
  refine ⟨?_, ?_, ?_⟩
  · rw [h2]
    exact mark_evening_audrey_map st.scheduleEvents date fromTime now hnd
  · rw [h2]
    rfl
  · intro hm hc
    have hmark : (mark_evening_audrey st.scheduleEvents date fromTime now).2
        = st.scheduleEvents := by
      simp only [mark_evening_audrey]
      rw [hm]
      rfl
    have hfself : st.cal.events.filter (fun e => !cancelCond date fromTime e)
        = st.cal.events := by
      rw [List.filter_eq_self]
      intro e he
      have := List.filter_eq_nil_iff.mp hc e he
      simp only [Bool.not_eq_true'] at this ⊢
      simp [this]
    have hcancel : (cancel_evening_events st.cal date fromTime).2 = st.cal := by
      simp only [cancel_evening_events]
      rw [hfself]
    have hc1 : (cancel_evening_events st.cal date fromTime).1 = [] := hc
    have hm1 : (mark_evening_audrey st.scheduleEvents date fromTime now).1 = [] := hm
    simp only [process_audrey_time]
    rw [hc1, hm1, hmark, hcancel]
    rfl

/-- Witness for C7 (amended) at a two-block evening: the 17:00 block is
untouched, the 19:00 block is marked "audrey_time", and the matching
tagged calendar event is deleted. -/
theorem process_audrey_time_marks_planned_witness :
    ((audreySample.scheduleEvents.map (fun e => e.id)).Nodup) ∧
    ((process_audrey_time audreySample 0 1080 7).2.scheduleEvents
      = audreySample.scheduleEvents.map (fun x =>
          if audreyCond 0 1080 x then
            { x with status := "audrey_time", updatedAt := 7 }
          else x)) ∧
    (process_audrey_time audreySample 0 1080 7).2.scheduleEvents
      = [⟨1, 0, 1020, 1080, "Early", "cfa", none, "planned", none, none, 0⟩,
         ⟨2, 0, 1140, 1200, "Evening", "leetcode", none, "audrey_time", none, none, 7⟩] ∧
    (process_audrey_time audreySample 0 1080 7).2.cal.events
      = [⟨1, 0, 1020, 1080, "[Plato] Early", none, none⟩] :=
  ⟨by decide,
   (process_audrey_time_marks_planned audreySample 0 1080 7 (by decide)).1,
   by decide, by decide⟩

/-! ## Claim theorem: C8 (and its sorting lemmas) -/

theorem mem_insByKey (key : α → Nat) (e x : α) :
    ∀ l, x ∈ insByKey key e l ↔ x = e ∨ x ∈ l := by
  intro l
  induction l with
  | nil => simp [insByKey]
  | cons a t ih =>
    simp only [insByKey]
    split
    · rw [List.mem_cons, ih, List.mem_cons]
      tauto
    · rw [List.mem_cons, List.mem_cons]

theorem mem_sortByKey (key : α → Nat) (x : α) :
    ∀ l, x ∈ sortByKey key l ↔ x ∈ l := by
  intro l
  induction l with
  | nil => simp [sortByKey]
  | cons a t ih =>
    rw [show sortByKey key (a :: t) = insByKey key a (sortByKey key t) from rfl,
      mem_insByKey, ih, List.mem_cons]

theorem sorted_insByKey (key : α → Nat) (e : α) :
    ∀ l, l.Pairwise (fun a b => key a ≤ key b) →
      (insByKey key e l).Pairwise (fun a b => key a ≤ key b) := by
  intro l
  induction l with
  | nil =>
    intro _
    simp [insByKey]
  | cons a t ih =>
    intro h
    rw [List.pairwise_cons] at h
    simp only [insByKey]
    split
    · rename_i hle
      rw [List.pairwise_cons]
      refine ⟨?_, ih h.2⟩
      intro y hy
      rcases (mem_insByKey key e y t).mp hy with rfl | hy'
      · exact hle
      · exact h.1 y hy'
    · rename_i hgt
      rw [List.pairwise_cons]
      refine ⟨?_, List.pairwise_cons.mpr ⟨h.1, h.2⟩⟩
      intro y hy
      rcases List.mem_cons.mp hy with rfl | hy'
      · omega
      · have := h.1 y hy'
        omega

theorem sorted_sortByKey (key : α → Nat) :
    ∀ l : List α, (sortByKey key l).Pairwise (fun a b => key a ≤ key b) := by
  intro l
  induction l with
  | nil => simp [sortByKey]
  | cons a t ih => exact sorted_insByKey key a _ ih

theorem getLast?_cons_isSome (b : α) (u : List α) : ((b :: u).getLast?).isSome := by
  induction u generalizing b with
  | nil => rfl
  | cons c v ih =>
    rw [List.getLast?_cons_cons]
    exact ih c

theorem mem_of_getLast?_eq (l : List α) (a : α) (h : l.getLast? = some a) : a ∈ l := by
  induction l with
  | nil => cases h
  | cons b u ih =>
    cases u with
    | nil =>
      cases h
      exact List.mem_singleton.mpr rfl
    | cons c v =>
      rw [List.getLast?_cons_cons] at h
      exact List.mem_cons_of_mem _ (ih h)

theorem sorted_le_getLast (key : α → Nat) :
    ∀ (l : List α) (r : α), l.Pairwise (fun a b => key a ≤ key b) →
      l.getLast? = some r → ∀ x ∈ l, key x ≤ key r := by
  intro l
  induction l with
  | nil =>
    intro r _ h
    cases h
  | cons b u ih =>
    intro r hp hl x hx
    rw [List.pairwise_cons] at hp
    cases u with
    | nil =>
      cases hl
      rcases List.mem_singleton.mp hx with rfl
      exact Nat.le_refl _
    | cons c v =>
      rw [List.getLast?_cons_cons] at hl
      rcases List.mem_cons.mp hx with rfl | hx'
      · exact hp.1 r (mem_of_getLast?_eq _ r hl)
      · exact ih r hp.2 hl x hx'

/-- Helper: the keep-last fold of the check-in loop returns the last
element of the filtered list, or the start value when nothing matches. -/
theorem foldl_pick_eq_getLast? (Q : α → Bool) :
    ∀ (l : List α) (acc : Option α),
      l.foldl (fun a e => if Q e then some e else a) acc
        = ((l.filter Q).getLast?).elim acc some := by
  intro l
  induction l with
  | nil =>
    intro acc
    rfl
  | cons e t ih =>
    intro acc
    rw [List.foldl_cons]
    by_cases hq : Q e
    · rw [if_pos hq, ih, List.filter_cons_of_pos hq]
      cases hft : t.filter Q with
      | nil => rfl
      | cons b u =>
        obtain ⟨y, hy⟩ := Option.isSome_iff_exists.mp (getLast?_cons_isSome b u)
        rw [List.getLast?_cons_cons, hy]
        rfl
    · rw [if_neg hq, ih, List.filter_cons_of_neg hq]

/-- C8: a check-in without an explicit event id resolves its target to
the most recent of today's events still in "planned" status whose end
time is at or before now — a qualifying event whose start time bounds
every other qualifying event's — and updates exactly that event (by id);
when no event qualifies, it returns the "nothing to check in against"
result and mutates nothing. -/
theorem process_check_in_resolution (st : SchedState) (status : String)
    (asum gap : Option String) (today : Int) (now : Nat) :
    ((∀ e ∈ st.scheduleEvents, chkCond today now e = false) →
      process_check_in st none status asum gap today now = (.noRecentBlock, st)) ∧
    (∀ e₀ ∈ st.scheduleEvents, chkCond today now e₀ = true →
      ∃ r ∈ st.scheduleEvents, chkCond today now r = true ∧
        (∀ e ∈ st.scheduleEvents, chkCond today now e = true →
          e.startTime ≤ r.startTime) ∧
        process_check_in st none status asum gap today now =
          (.checkedInResolved r.title status,
           { st with scheduleEvents :=
              update_schedule_event st.scheduleEvents r.id status asum gap now })) := by
  have key : ∀ x, x ∈ (get_planned_events_for_date st.scheduleEvents today).filter
      (fun (e : SEvent) => decide (e.endTime ≤ now) && (e.status == "planned")) ↔
      (x ∈ st.scheduleEvents ∧ chkCond today now x = true) := by
    intro x
    unfold get_planned_events_for_date chkCond
    rw [List.mem_filter, mem_sortByKey, List.mem_filter]
    simp only [Bool.and_eq_true]
    tauto
  have hsorted : ((get_planned_events_for_date st.scheduleEvents today).filter
      (fun (e : SEvent) => decide (e.endTime ≤ now) && (e.status == "planned"))).Pairwise
      (fun a b => a.startTime ≤ b.startTime) := by
    apply List.Pairwise.sublist (List.filter_sublist _)
    exact sorted_sortByKey (fun (e : SEvent) => e.startTime) _
  constructor
  · intro hnone
    have hfil : (get_planned_events_for_date st.scheduleEvents today).filter
        (fun (e : SEvent) => decide (e.endTime ≤ now) && (e.status == "planned")) = [] := by
      cases hl : (get_planned_events_for_date st.scheduleEvents today).filter
          (fun (e : SEvent) => decide (e.endTime ≤ now) && (e.status == "planned")) with
      | nil => rfl
      | cons b u =>
        have hb := (key b).mp (hl ▸ List.mem_cons_self b u)
        rw [hnone b hb.1] at hb
        cases hb.2
    simp only [process_check_in]
    rw [foldl_pick_eq_getLast? (fun (e : SEvent) => decide (e.endTime ≤ now) && (e.status == "planned")),
      hfil]
    rfl
  · intro e₀ he₀ hq₀
    have he₀f : e₀ ∈ (get_planned_events_for_date st.scheduleEvents today).filter
        (fun (e : SEvent) => decide (e.endTime ≤ now) && (e.status == "planned")) :=
      (key e₀).mpr ⟨he₀, hq₀⟩
    obtain ⟨r, hgl⟩ : ∃ r, ((get_planned_events_for_date st.scheduleEvents today).filter
        (fun (e : SEvent) => decide (e.endTime ≤ now) && (e.status == "planned"))).getLast? = some r := by
      cases hl : (get_planned_events_for_date st.scheduleEvents today).filter
          (fun (e : SEvent) => decide (e.endTime ≤ now) && (e.status == "planned")) with
      | nil => rw [hl] at he₀f; cases he₀f
      | cons b u => exact Option.isSome_iff_exists.mp (getLast?_cons_isSome b u)
    have hrmem := (key r).mp (mem_of_getLast?_eq _ r hgl)
    refine ⟨r, hrmem.1, hrmem.2, ?_, ?_⟩
    · intro e he hqe
      exact sorted_le_getLast (fun e => e.startTime) _ r hsorted hgl e ((key e).mpr ⟨he, hqe⟩)
    · simp only [process_check_in]
      rw [foldl_pick_eq_getLast? (fun (e : SEvent) => decide (e.endTime ≤ now) && (e.status == "planned")),
        hgl]
      rfl

/-- Witness for C8: two planned blocks today, ended by 20:30; the
resolution picks the later (19:00) block and updates only it. -/
theorem process_check_in_resolution_witness :
    ((⟨1, 0, 1020, 1080, "A", "cfa", none, "planned", none, none, 0⟩ : SEvent)
        ∈ checkInSample.scheduleEvents ∧
      chkCond 0 1230 ⟨1, 0, 1020, 1080, "A", "cfa", none, "planned", none, none, 0⟩ = true) ∧
    (∃ r ∈ checkInSample.scheduleEvents, chkCond 0 1230 r = true ∧
      (∀ e ∈ checkInSample.scheduleEvents, chkCond 0 1230 e = true →
        e.startTime ≤ r.startTime) ∧
      process_check_in checkInSample none "completed" none none 0 1230 =
        (.checkedInResolved r.title "completed",
         { checkInSample with scheduleEvents :=
            (update_schedule_event checkInSample.scheduleEvents r.id "completed"
              none none 1230) })) ∧
    (process_check_in checkInSample none "completed" none none 0 1230).1
      = .checkedInResolved "B" "completed" :=
  ⟨⟨by decide, by decide⟩,
   (process_check_in_resolution checkInSample "completed" none none 0 1230).2
     ⟨1, 0, 1020, 1080, "A", "cfa", none, "planned", none, none, 0⟩
     (by decide) (by decide),
   by decide⟩

end Plato
